import Mathlib

/-!
Shallow embedding of the Cinch card-game engine (`src/lib/game.js` and its
data types `card.js`, `constants.js`, `deck.js`, `player.js`, `hand.js`).

JavaScript arrays become `List`, the `Set` of seats that have bid becomes a
duplicate-free `List Nat` with insertion-order append, JS numbers that stay
non-negative become `Nat`, team scores (which can go negative through failed
bids) become `Int`, nullable references become `Option`, and methods that
mutate `this` become functions `GameState → ... → GameState` (or return the
result paired with the new state).  Fields that the source stores as object
references (`highestBidder`, `cinchBidder`) hold the `Player` value; the
engine only ever reads the immutable `seat`/`team` fields of those
references, so a value snapshot is a faithful model.
-/

namespace Cinch

/-- The four card suits (src/lib/constants.js `SUITS`). -/
def SUITS : List String := ["♥", "♦", "♣", "♠"]

/-- Card ranks in ascending order (src/lib/constants.js `RANKS`). -/
def RANKS : List String :=
  ["2", "3", "4", "5", "6", "7", "8", "9", "10", "J", "Q", "K", "A"]

/-- Bid-name to value mapping (src/lib/constants.js `BID_VALUES`).
`none` models JavaScript's `undefined` for a key that is absent. -/
def BID_VALUES : String → Option Nat := fun b =>
  if b = "pass" then some 0
  else if b = "1" then some 1
  else if b = "2" then some 2
  else if b = "3" then some 3
  else if b = "4" then some 4
  else if b = "cinch" then some 11
  else none

/-- A playing card (src/lib/card.js). -/
structure Card where
  suit : String
  rank : String
deriving DecidableEq, Repr

/-- `Card.getPointValue` from src/lib/card.js. -/
def Card.getPointValue (c : Card) : Nat :=
  if c.rank = "A" then 4
  else if c.rank = "K" then 3
  else if c.rank = "Q" then 2
  else if c.rank = "J" then 1
  else if c.rank = "10" then 10
  else 0

/-- `Card.getRankIndex` from src/lib/card.js: position of the rank in `RANKS`.
(The source's `indexOf` yields -1 for a rank not in the table; every card this
engine constructs has a rank from the table, where the two agree.) -/
def Card.getRankIndex (c : Card) : Nat := RANKS.indexOf c.rank

/-- A player (src/lib/player.js).  `hand` and `wonCards` are the two `Hand`
containers; a `Hand` is just its ordered list of cards. -/
structure Player where
  id : String
  seat : Nat
  name : String
  team : Nat
  hand : List Card
  wonCards : List Card
deriving DecidableEq, Repr

/-- The `Player` constructor: team 1 for even seats, team 2 for odd seats. -/
def Player.make (id : String) (seat : Nat) (name : String) : Player :=
  { id := id, seat := seat, name := name
    team := if seat % 2 = 0 then 1 else 2
    hand := [], wonCards := [] }

/-- One entry of the trick-in-progress list (`{ seat, card, name }`). -/
structure TrickPlay where
  seat : Nat
  card : Card
  name : String
deriving DecidableEq, Repr

/-- The two cumulative team scores (`this.scores`). -/
structure Scores where
  team1 : Int
  team2 : Int
deriving DecidableEq, Repr

/-- Read `this.scores[\x7bteamN\x7d]`; the engine only ever builds team
numbers 1 and 2 (team is seat parity). -/
def Scores.get (sc : Scores) (t : Nat) : Int :=
  if t = 1 then sc.team1 else sc.team2

/-- `this.scores[\x7bteamN\x7d] += v` for team `t ∈ {1, 2}`. -/
def Scores.add (sc : Scores) (t : Nat) (v : Int) : Scores :=
  if t = 1 then { sc with team1 := sc.team1 + v } else { sc with team2 := sc.team2 + v }

/-- The full engine state: the fields of `CinchGame` (src/lib/game.js). -/
structure GameState where
  players : List Player
  deck : List Card
  currentBid : Nat
  highestBidder : Option Player
  bidContract : Nat
  trumpSuit : Option String
  phase : String
  currentPlayer : Nat
  trickPlays : List TrickPlay
  scores : Scores
  bids : Nat
  playersDiscarded : Nat
  cinchBidder : Option Player
  cinchOverridePhase : Bool
  overrideAttempts : Nat
  dealer : Int
  isFirstHand : Bool
  playersBid : List Nat
deriving DecidableEq, Repr

/-- `this.playersBid.add(seat)`: JS `Set` insertion is idempotent and keeps
insertion order. -/
def addSeatBid (s : List Nat) (seat : Nat) : List Nat :=
  if seat ∈ s then s else s ++ [seat]

/-- `nextPlayer()`: advance the turn pointer modulo 4. -/
def nextPlayer (s : GameState) : GameState :=
  { s with currentPlayer := (s.currentPlayer + 1) % 4 }

/-- `getWinningTeam()` from src/lib/game.js. -/
def getWinningTeam (s : GameState) : Option Nat :=
  if 21 ≤ s.scores.team1 ∧ 21 ≤ s.scores.team2 then
    if s.scores.team1 > s.scores.team2 then some 1
    else if s.scores.team2 > s.scores.team1 then some 2
    else none
  else if 21 ≤ s.scores.team1 then some 1
  else if 21 ≤ s.scores.team2 then some 2
  else none

/-- The `teamPoints` (and `points`) maps `{1: _, 2: _}` used by scoring. -/
structure ScoreTeamPoints where
  t1 : Nat
  t2 : Nat
deriving DecidableEq, Repr

/-- Read `teamPoints[t]` for `t ∈ {1, 2}`. -/
def ScoreTeamPoints.get (tp : ScoreTeamPoints) (t : Nat) : Nat :=
  if t = 1 then tp.t1 else tp.t2

/-- The structured result of `calculateScore()`. -/
structure ScoreResults where
  high : Option (Card × Nat)
  low : Option (Card × Nat)
  jack : Option Nat
  gameTeam : Option Nat
  gamePoints : ScoreTeamPoints
  teamPoints : ScoreTeamPoints
deriving DecidableEq, Repr

/-- The result object of `applyScore()`; `pointsAwarded` is present only on
success, modelled by `Option`. -/
structure ApplyScoreResult where
  success : Bool
  biddingTeam : Nat
  pointsAwarded : Option Nat
deriving DecidableEq, Repr

/-- `applyScore(scoreResults)` from src/lib/game.js.  The source immediately
dereferences `this.highestBidder.team` (throwing on `null`), modelled by
returning `none` when there is no highest bidder. -/
def applyScore (s : GameState) (sr : ScoreResults) : Option (ApplyScoreResult × GameState) :=
  match s.highestBidder with
  | none => none
  | some hb =>
    let biddingTeam := hb.team
    let otherTeam := if biddingTeam = 1 then 2 else 1
    let s1 : GameState :=
      { s with scores := s.scores.add otherTeam (sr.teamPoints.get otherTeam) }
    if s1.bidContract = 11 then
      if sr.teamPoints.get biddingTeam = 4 then
        some ({ success := true, biddingTeam := biddingTeam, pointsAwarded := some 11 },
              { s1 with scores := s1.scores.add biddingTeam 11 })
      else
        some ({ success := false, biddingTeam := biddingTeam, pointsAwarded := none },
              { s1 with scores := s1.scores.add biddingTeam (-(s1.bidContract : Int)) })
    else
      if s1.bidContract ≤ sr.teamPoints.get biddingTeam then
        let pointsToAward := min (sr.teamPoints.get biddingTeam) 4
        some ({ success := true, biddingTeam := biddingTeam, pointsAwarded := some pointsToAward },
              { s1 with scores := s1.scores.add biddingTeam (pointsToAward : Int) })
      else
        some ({ success := false, biddingTeam := biddingTeam, pointsAwarded := none },
              { s1 with scores := s1.scores.add biddingTeam (-(s1.bidContract : Int)) })

/-- The conclusion of claim C4, as a predicate on the inputs. -/
def ApplyScoreSpec (s : GameState) (sr : ScoreResults) (hb : Player) : Prop :=
  match applyScore s sr with
  | none => False
  | some (res, s') =>
     let bt := hb.team
     let ot := if bt = 1 then 2 else 1
     res.biddingTeam = bt ∧
     s'.scores.get ot = s.scores.get ot + sr.teamPoints.get ot ∧
     (s.bidContract = 11 →
       ((res.success = true) ↔ sr.teamPoints.get bt = 4) ∧
       (sr.teamPoints.get bt = 4 →
         s'.scores.get bt = s.scores.get bt + 11 ∧ res.pointsAwarded = some 11) ∧
       (sr.teamPoints.get bt ≠ 4 →
         s'.scores.get bt = s.scores.get bt - 11 ∧ res.pointsAwarded = none)) ∧
     (s.bidContract ≠ 11 →
       ((res.success = true) ↔ s.bidContract ≤ sr.teamPoints.get bt) ∧
       (s.bidContract ≤ sr.teamPoints.get bt →
         s'.scores.get bt = s.scores.get bt + (min (sr.teamPoints.get bt) 4 : Nat) ∧
         res.pointsAwarded = some (min (sr.teamPoints.get bt) 4)) ∧
       (¬ s.bidContract ≤ sr.teamPoints.get bt →
         s'.scores.get bt = s.scores.get bt - s.bidContract ∧
         res.pointsAwarded = none)) ∧
     (res.pointsAwarded.isSome = res.success)

/-- `getEligibleOpposingPlayers()` (src/lib/game.js lines 285-291): seated
players on the team opposing the cinch bidder who have not yet bid.  The
source dereferences `this.cinchBidder.team` (throwing on `null`); it is only
called with the cinch bidder set, so the `none` branch returns `[]`. -/
def getEligibleOpposingPlayers (s : GameState) : List Player :=
  match s.cinchBidder with
  | none => []
  | some cb =>
      s.players.filter (fun p => decide (p.team ≠ cb.team ∧ p.seat ∉ s.playersBid))

/-- The body of the bounded `while` loop in
`findNextEligibleOpposingTeamMember` (src/lib/game.js lines 316-323): advance
the turn, stop as soon as it lands on an eligible seat, at most `fuel`
advances. -/
def findNextLoop (eligible : List Player) : Nat → GameState → GameState
  | 0, s => s
  | fuel + 1, s =>
    let s' := nextPlayer s
    if eligible.any (fun p => decide (p.seat = s'.currentPlayer)) then s'
    else findNextLoop eligible fuel s'

/-- `findNextEligibleOpposingTeamMember()` (src/lib/game.js lines 311-324):
a no-op when the eligible set is empty, otherwise the bounded rotation. -/
def findNextEligibleOpposingTeamMember (s : GameState) : GameState :=
  let eligiblePlayers := getEligibleOpposingPlayers s
  if eligiblePlayers.length = 0 then s
  else findNextLoop eligiblePlayers 4 s

/-- The result object of `processBid()`.  The source returns object literals
with different field sets; a field absent from a literal is `none`. -/
structure BidResult where
  finished : Bool
  cinchOverride : Option Bool := none
  overrideSuccessful : Option Bool := none
  cinchOffered : Option Bool := none
  error : Option String := none
deriving DecidableEq, Repr

/-- The tail of `processBid` shared by pass and numbered bids (src/lib/game.js
lines 268-277): advance the turn, finish after the 4th bid. -/
def processBidNormalTail (s : GameState) : BidResult × GameState :=
  let s1 := nextPlayer s
  if s1.bids = 4 then
    ({ finished := true },
     { s1 with phase := "chooseTrump", cinchOverridePhase := false, overrideAttempts := 0 })
  else
    ({ finished := false }, s1)

/-- The cinch-override branch of `processBid` (src/lib/game.js lines
195-226), taken when `this.cinchOverridePhase` is set: increment the attempt
counter first, then dispatch on the incoming bid. -/
def processBidOverride (s : GameState) (player : Player) (bid : String) (value : Nat) :
    BidResult × GameState :=
  let s1 := { s with overrideAttempts := s.overrideAttempts + 1 }
  if bid = "cinch" then
    if player.seat ∈ s1.playersBid then
      ({ finished := false, cinchOverride := some true,
         error := some "Player has already bid this hand" }, s1)
    else
      ({ finished := true, cinchOverride := some true, overrideSuccessful := some true },
       { s1 with highestBidder := some player, bidContract := value,
                 cinchBidder := some player,
                 playersBid := addSeatBid s1.playersBid player.seat,
                 cinchOverridePhase := false, overrideAttempts := 0 })
  else
    let eligibleOpposingPlayers := getEligibleOpposingPlayers s1
    if eligibleOpposingPlayers.length ≤ s1.overrideAttempts then
      ({ finished := true, cinchOverride := some true, overrideSuccessful := some false },
       { s1 with cinchOverridePhase := false, overrideAttempts := 0 })
    else
      ({ finished := false, cinchOverride := some true },
       findNextEligibleOpposingTeamMember s1)

/-- `processBid(player, bid)` (src/lib/game.js lines 191-278). -/
def processBid (s : GameState) (player : Player) (bid : String) : BidResult × GameState :=
  let value := (BID_VALUES bid).getD 0
  if s.cinchOverridePhase then
    processBidOverride s player bid value
  else
    let s1 := { s with bids := s.bids + 1, playersBid := addSeatBid s.playersBid player.seat }
    if bid ≠ "pass" then
      let s2 := { s1 with currentBid := value, highestBidder := some player, bidContract := value }
      if bid = "cinch" then
        let s3 := { s2 with cinchBidder := some player }
        if s3.bids = 4 then
          ({ finished := true },
           { s3 with phase := "chooseTrump", cinchOverridePhase := false, overrideAttempts := 0 })
        else
          let eligibleOpposingPlayers := getEligibleOpposingPlayers s3
          if 0 < eligibleOpposingPlayers.length then
            ({ finished := false, cinchOverride := some true, cinchOffered := some true },
             findNextEligibleOpposingTeamMember
               { s3 with cinchOverridePhase := true, overrideAttempts := 0 })
          else
            ({ finished := true },
             { s3 with phase := "chooseTrump", cinchOverridePhase := false, overrideAttempts := 0 })
      else
        processBidNormalTail s2
    else
      processBidNormalTail s1

/-- A convenient fully-concrete base state (the constructor's initial values,
src/lib/game.js lines 14-33). -/
def initialState : GameState :=
  { players := [], deck := [], currentBid := 0, highestBidder := none
    bidContract := 0, trumpSuit := none, phase := "waiting", currentPlayer := 0
    trickPlays := [], scores := { team1 := 0, team2 := 0 }, bids := 0
    playersDiscarded := 0, cinchBidder := none, cinchOverridePhase := false
    overrideAttempts := 0, dealer := -1, isFirstHand := true, playersBid := [] }

/-- The standard 4-player roster used in concrete witnesses: seats 0-3,
teams 1,2,1,2 (exactly what four `addPlayer` calls build). -/
def mkPlayers : List Player :=
  [Player.make "p0" 0 "P0", Player.make "p1" 1 "P1",
   Player.make "p2" 2 "P2", Player.make "p3" 3 "P3"]

/-- A concrete mid-bidding state with 4 seated players. -/
def baseGame : GameState :=
  { initialState with players := mkPlayers, phase := "bidding",
                      dealer := 0, currentPlayer := 1 }

/-- The reduction loop of `resolveTrick()` (src/lib/game.js lines 398-409):
`winning` starts as the first play; each later play supersedes it if it is
trump while the winner is not, or if it matches the winner's suit with a
strictly higher rank index.  `trump` is the engine's nullable trump suit;
comparing a card's suit with a `null` trump is always false, as in JS. -/
def trickFold (trump : Option String) (winning : TrickPlay) : List TrickPlay → TrickPlay
  | [] => winning
  | play :: rest =>
    if some play.card.suit = trump ∧ ¬ some winning.card.suit = trump then
      trickFold trump play rest
    else if play.card.suit = winning.card.suit ∧
        winning.card.getRankIndex < play.card.getRankIndex then
      trickFold trump play rest
    else
      trickFold trump winning rest

/-- `resolveTrick()`: the source reads `this.trickPlays[0]` (undefined on an
empty trick, which only `playCard` at 4 plays ever avoids); modelled as
`Option`. -/
def resolveTrick (s : GameState) : Option TrickPlay :=
  match s.trickPlays with
  | [] => none
  | w :: rest => some (trickFold s.trumpSuit w rest)

/-- Claim-side supersession relation: play beats the tentative winner iff
(a) it is trump and the winner is not, or (b) same suit and strictly higher
rank index. -/
def supersedes (trump : Option String) (winning play : TrickPlay) : Prop :=
  (some play.card.suit = trump ∧ ¬ some winning.card.suit = trump) ∨
  (play.card.suit = winning.card.suit ∧
    winning.card.getRankIndex < play.card.getRankIndex)

instance (trump : Option String) (winning play : TrickPlay) :
    Decidable (supersedes trump winning play) := by
  unfold supersedes
  infer_instance

/-- Claim-side reading of `resolveTrick`: a single left-to-right pass where a
play replaces the tentative winner exactly when it `supersedes` it. -/
def resolveSpecFold (trump : Option String) : List TrickPlay → Option TrickPlay
  | [] => none
  | w :: rest =>
      some (rest.foldl (fun acc p => if supersedes trump acc p then p else acc) w)

/-- The spec's worked trick example: trump ♠, plays
[(0,♥A),(1,♥K),(2,♠2),(3,♥Q)]. -/
def exTrickState : GameState :=
  { baseGame with trumpSuit := some "♠", phase := "playing",
                  trickPlays := [⟨0, ⟨"♥", "A"⟩, "P0"⟩, ⟨1, ⟨"♥", "K"⟩, "P1"⟩,
                                 ⟨2, ⟨"♠", "2"⟩, "P2"⟩, ⟨3, ⟨"♥", "Q"⟩, "P3"⟩] }

/-- Conclusion of claim C5 for a non-empty trick led by `w`. -/
def ResolveTrickNonEmptySpec (s : GameState) (w : TrickPlay) (_rest : List TrickPlay) : Prop :=
  ∃ win, resolveTrick s = some win ∧ win ∈ s.trickPlays ∧
    (win.card.suit = w.card.suit ∨ some win.card.suit = s.trumpSuit) ∧
    ((∃ p ∈ s.trickPlays, some p.card.suit = s.trumpSuit) →
      some win.card.suit = s.trumpSuit ∧
      ∀ p ∈ s.trickPlays, some p.card.suit = s.trumpSuit →
        p.card.getRankIndex ≤ win.card.getRankIndex) ∧
    ((∀ p ∈ s.trickPlays, ¬ some p.card.suit = s.trumpSuit) →
      win.card.suit = w.card.suit ∧
      ∀ p ∈ s.trickPlays, p.card.suit = w.card.suit →
        p.card.getRankIndex ≤ win.card.getRankIndex)

/-- Concrete state for the C4 witness: team 1 holds a contract of 2 (the
spec's worked example). -/
def c4State : GameState :=
  { baseGame with highestBidder := some (Player.make "p0" 0 "P0"), bidContract := 2 }

/-- Score results for the C4 witness: teamPoints `{1:5, 2:1}`. -/
def c4SR : ScoreResults :=
  { high := none, low := none, jack := none, gameTeam := none,
    gamePoints := { t1 := 0, t2 := 0 }, teamPoints := { t1 := 5, t2 := 1 } }

/-- JS `indices.sort((a, b) => b - a)` inside `Hand.removeCards`: the indices
in descending order. -/
def sortDesc (indices : List Nat) : List Nat :=
  List.insertionSort (· ≥ ·) indices

/-- The removal loop of `Hand.removeCards` (src/lib/hand.js): one
`splice(index, 1)` per index, collecting the removed cards in processing
order.  `splice` at an out-of-range index removes nothing and yields
`undefined`, modelled by `List.eraseIdx` (a no-op out of range) and
`List.get?` (`none` out of range). -/
def spliceOutEach : List Nat → List Card → List Card × List (Option Card)
  | [], cards => (cards, [])
  | i :: rest, cards =>
    let removed := cards.get? i
    let result := spliceOutEach rest (cards.eraseIdx i)
    (result.1, removed :: result.2)

/-- `Hand.removeCards(indices)` from src/lib/hand.js: sort the indices
descending, then splice each out; returns (remaining hand, removed cards). -/
def Hand.removeCards (indices : List Nat) (cards : List Card) :
    List Card × List (Option Card) :=
  spliceOutEach (sortDesc indices) cards

/-- Spec-side: the cards whose position (counting from `k`) is not listed in
`S`, in order — "removing exactly the cards at those positions". -/
def keptFrom (S : List Nat) : Nat → List Card → List Card
  | _, [] => []
  | k, c :: cs => if k ∈ S then keptFrom S (k + 1) cs else c :: keptFrom S (k + 1) cs

/-- Conclusion of claim C8: the remaining hand is exactly the cards at
positions outside the index set, the removed cards are exactly the cards at
the supplied positions (in descending-index order), and the result is
invariant under permuting the supplied index list. -/
def RemoveCardsSpec (cards : List Card) (indices : List Nat) : Prop :=
  (Hand.removeCards indices cards).1 = keptFrom indices 0 cards ∧
  (Hand.removeCards indices cards).2 = (sortDesc indices).map cards.get? ∧
  ∀ indices2, indices2.Perm indices →
    Hand.removeCards indices2 cards = Hand.removeCards indices cards

/-- A concrete 4-card hand for the C8 witness. -/
def exCards : List Card :=
  [⟨"♥", "2"⟩, ⟨"♦", "3"⟩, ⟨"♣", "4"⟩, ⟨"♠", "5"⟩]

/-- `Deck.createDeck()` (src/lib/deck.js): all 52 suit-major, rank-minor
combinations. -/
def createDeck : List Card :=
  SUITS.flatMap (fun suit => RANKS.map (fun rank => ⟨suit, rank⟩))

/-- Swap the elements at positions `i` and `j` (the body of one Fisher-Yates
step); a no-op if either index is out of range (never the case in
`shuffle`). -/
def swapIdx (l : List Card) (i j : Nat) : List Card :=
  match l.get? i, l.get? j with
  | some a, some b => (l.set i b).set j a
  | _, _ => l

/-- The Fisher-Yates loop of `Deck.shuffle()`: for `i` from the last index
down to 1, pick `j` uniform in `[0, i]` and swap.  `Math.random()` is
modelled by a tape of naturals; entry `t` yields `j = t % (i + 1)`.  If the
tape runs out the remaining iterations leave the deck unchanged. -/
def fisherYatesAux : List Nat → Nat → List Card → List Card
  | _, 0, cards => cards
  | [], _ + 1, cards => cards
  | t :: ts, i2 + 1, cards => fisherYatesAux ts i2 (swapIdx cards (i2 + 1) (t % (i2 + 2)))

/-- `Deck.shuffle()` under a given randomness tape. -/
def shuffle (tape : List Nat) (cards : List Card) : List Card :=
  fisherYatesAux tape (cards.length - 1) cards

/-- `this.players[p].addCardToHand(card)`: append to that player's hand.
No-op when `p` is out of range (the dealing loops only use in-range `p`). -/
def addCardToHandAt (ps : List Player) (p : Nat) (card : Card) : List Player :=
  match ps.get? p with
  | none => ps
  | some pl => ps.set p { pl with hand := pl.hand ++ [card] }

/-- One iteration of the dealing loops (src/lib/game.js lines 124-127 and
140-143): if the deck is non-empty, deal its first card to player `p`. -/
def dealOneTo (s : GameState) (p : Nat) : GameState :=
  match s.deck with
  | [] => s
  | card :: rest => { s with deck := rest, players := addCardToHandAt s.players p card }

/-- The inner loop of `dealCards`: one card to each seated player in order. -/
def dealRound (s : GameState) : GameState :=
  (List.range s.players.length).foldl dealOneTo s

/-- `dealCards(cardsEach)` (src/lib/game.js lines 121-130); the source's
default argument is 6. -/
def dealCards (cardsEach : Nat) (s : GameState) : GameState :=
  (List.range cardsEach).foldl (fun s1 _ => dealRound s1) s

/-- The per-player body of `dealNewCards`: top player `p` up to 6 cards,
dealing only the shortfall computed from the current hand. -/
def dealNewCardsTo (s : GameState) (p : Nat) : GameState :=
  let cardsNeeded := 6 - (match s.players.get? p with
    | none => 6
    | some pl => pl.hand.length)
  (List.range cardsNeeded).foldl (fun s2 _ => dealOneTo s2 p) s

/-- `dealNewCards()` (src/lib/game.js lines 136-146). -/
def dealNewCards (s : GameState) : GameState :=
  (List.range s.players.length).foldl dealNewCardsTo s

/-- `Player.resetForNewHand()`: fresh empty hand and won-cards containers. -/
def resetForNewHand (p : Player) : Player :=
  { p with hand := [], wonCards := [] }

/-- The state `startNewHand()` builds just before dealing (src/lib/game.js
lines 88-111): dealer rotated, hand-specific state reset, fresh shuffled
deck, bidding turn left of the dealer, players reset.  `Int.tmod` is JS's `%`
(truncated remainder, needed because the dealer starts at -1). -/
def startHandState (tape : List Nat) (s : GameState) : GameState :=
  let newDealer := Int.tmod (s.dealer + 1) 4
  { s with dealer := newDealer, isFirstHand := false,
           deck := shuffle tape createDeck,
           currentBid := 0, highestBidder := none, bidContract := 0,
           trumpSuit := none, phase := "bidding",
           currentPlayer := (Int.tmod (newDealer + 1) 4).toNat,
           trickPlays := [], bids := 0, playersDiscarded := 0,
           cinchBidder := none, cinchOverridePhase := false, overrideAttempts := 0,
           playersBid := [],
           players := s.players.map resetForNewHand }

/-- `startNewHand()` (src/lib/game.js lines 87-115): reset, then deal 6 cards
to each player. -/
def startNewHand (tape : List Nat) (s : GameState) : GameState :=
  dealCards 6 (startHandState tape s)

/-- The result object of `playCard()`. -/
structure PlayCardResult where
  trickComplete : Bool
  winner : Option TrickPlay := none
deriving DecidableEq, Repr

/-- `playCard(player, cardIndex)` (src/lib/game.js lines 376-391), with the
player passed by seat index.  The source assumes prior validation and would
misbehave on an invalid seat or card index (and throw on a completed trick
whose winner seat is unoccupied); those cases return `none`. -/
def playCard (s : GameState) (pseat : Nat) (cardIndex : Nat) :
    Option (PlayCardResult × GameState) :=
  match s.players.get? pseat with
  | none => none
  | some player =>
    match player.hand.get? cardIndex with
    | none => none
    | some card =>
      let players1 := s.players.set pseat
        { player with hand := player.hand.eraseIdx cardIndex }
      let s1 := { s with players := players1,
                         trickPlays := s.trickPlays ++ [⟨player.seat, card, player.name⟩] }
      let s2 := nextPlayer s1
      if s2.trickPlays.length = 4 then
        match resolveTrick s2 with
        | none => none
        | some winner =>
          let winnerCards := s2.trickPlays.map TrickPlay.card
          match s2.players.get? winner.seat with
          | none => none
          | some wpl =>
            let players2 := s2.players.set winner.seat
              { wpl with wonCards := wpl.wonCards ++ winnerCards }
            some ({ trickComplete := true, winner := some winner },
                  { s2 with players := players2, trickPlays := [],
                            currentPlayer := winner.seat })
      else
        some ({ trickComplete := false }, s2)

/-- Total cards held in hands across the roster. -/
def handsCount (ps : List Player) : Nat :=
  (ps.map (fun p => p.hand.length)).sum

/-- Total cards in won-trick piles across the roster. -/
def wonCount (ps : List Player) : Nat :=
  (ps.map (fun p => p.wonCards.length)).sum

/-- Total cards in circulation: hands + won piles + trick in progress +
remaining deck. -/
def totalCards (s : GameState) : Nat :=
  handsCount s.players + wonCount s.players + s.trickPlays.length + s.deck.length

/-- What one dealing step preserves: the hands-plus-deck card total, the
won-card total, the trick in progress, and the roster size. -/
def DealInvariant (s s2 : GameState) : Prop :=
  handsCount s2.players + s2.deck.length = handsCount s.players + s.deck.length ∧
  wonCount s2.players = wonCount s.players ∧
  s2.trickPlays = s.trickPlays ∧
  s2.players.length = s.players.length

/-- A 4-player roster in which seat 0 holds one card, for the C7 witness. -/
def c7Players : List Player :=
  [{ Player.make "p0" 0 "P0" with hand := [⟨"♥", "2"⟩] },
   Player.make "p1" 1 "P1", Player.make "p2" 2 "P2", Player.make "p3" 3 "P3"]

/-- A concrete mid-play state for the C7 witness. -/
def c7PlayState : GameState :=
  { baseGame with phase := "playing", currentPlayer := 0,
                  players := c7Players, trumpSuit := some "♠" }

/-- The state after seat 0 plays its only card in `c7PlayState`. -/
def c7PlayAfter : GameState :=
  { c7PlayState with players := mkPlayers,
                     trickPlays := [⟨0, ⟨"♥", "2"⟩, "P0"⟩], currentPlayer := 1 }

/-- `Hand.hasCard(suit, rank)` from src/lib/hand.js. -/
def Hand.hasCard (cards : List Card) (suit rank : String) : Bool :=
  cards.any (fun c => c.suit == suit && c.rank == rank)

/-- `Hand.getTotalPointValue()` from src/lib/hand.js. -/
def Hand.getTotalPointValue (cards : List Card) : Nat :=
  cards.foldl (fun total c => total + c.getPointValue) 0

/-- `findCardTeam(targetCard)` (src/lib/game.js lines 527-534): the team of
the first player whose won pile holds a suit+rank match, else `null`. -/
def findCardTeam (s : GameState) (targetCard : Card) : Option Nat :=
  match s.players.find? (fun p => Hand.hasCard p.wonCards targetCard.suit targetCard.rank) with
  | none => none
  | some p => some p.team

/-- `teamPoints[team]++` for `team ∈ {1, 2}` (every constructed player's team
is 1 or 2). -/
def bumpTeam (tp : ScoreTeamPoints) (t : Nat) : ScoreTeamPoints :=
  if t = 1 then { tp with t1 := tp.t1 + 1 } else { tp with t2 := tp.t2 + 1 }

/-- `teamCardPoints[player.team] += v` for teams 1 and 2. -/
def addTeamPoints (tp : ScoreTeamPoints) (t : Nat) (v : Nat) : ScoreTeamPoints :=
  if t = 1 then { tp with t1 := tp.t1 + v } else { tp with t2 := tp.t2 + v }

/-- `calculateScore()` (src/lib/game.js lines 448-520): High, Low and Jack of
trump among the played (won) cards, the Game point for the strictly higher
card-point total, and the aggregate team points, accumulated in the source's
order high → low → jack → game.  `wonCards.toArray()` yields plain
suit/rank copies, represented by the card values themselves. -/
def calculateScore (s : GameState) : ScoreResults :=
  let allPlayedCards := s.players.foldl (fun acc p => acc ++ p.wonCards) []
  let trumpCards := allPlayedCards.filter (fun c => decide (some c.suit = s.trumpSuit))
  let highCard? : Option Card := match trumpCards with
    | [] => none
    | h :: t => some (t.foldl
        (fun highest c =>
          if RANKS.indexOf highest.rank < RANKS.indexOf c.rank then c else highest) h)
  let r1 : ScoreTeamPoints × Option (Card × Nat) := match highCard? with
    | none => ({ t1 := 0, t2 := 0 }, none)
    | some hc => match findCardTeam s hc with
      | none => ({ t1 := 0, t2 := 0 }, none)
      | some team => (bumpTeam { t1 := 0, t2 := 0 } team, some (hc, team))
  let lowCard? : Option Card := match trumpCards with
    | [] => none
    | h :: t => some (t.foldl
        (fun lowest c =>
          if RANKS.indexOf c.rank < RANKS.indexOf lowest.rank then c else lowest) h)
  let r2 : ScoreTeamPoints × Option (Card × Nat) := match lowCard? with
    | none => (r1.1, none)
    | some lc => match findCardTeam s lc with
      | none => (r1.1, none)
      | some team => (bumpTeam r1.1 team, some (lc, team))
  let r3 : ScoreTeamPoints × Option Nat :=
    match trumpCards.find? (fun c => c.rank == "J") with
    | none => (r2.1, none)
    | some jc => match findCardTeam s jc with
      | none => (r2.1, none)
      | some team => (bumpTeam r2.1 team, some team)
  let teamCardPoints := s.players.foldl
    (fun tp p => addTeamPoints tp p.team (Hand.getTotalPointValue p.wonCards))
    { t1 := 0, t2 := 0 }
  let r4 : ScoreTeamPoints × Option Nat :=
    if teamCardPoints.t2 < teamCardPoints.t1 then (bumpTeam r3.1 1, some 1)
    else if teamCardPoints.t1 < teamCardPoints.t2 then (bumpTeam r3.1 2, some 2)
    else (r3.1, none)
  { high := r1.2, low := r2.2, jack := r3.2, gameTeam := r4.2,
    gamePoints := teamCardPoints, teamPoints := r4.1 }

/-- `calculateScore` as a state transformer, the way a caller invokes it on
the engine: the method body contains no assignment to `this`, so the
embedding threads the state through unchanged. -/
def calculateScoreRun (s : GameState) : ScoreResults × GameState :=
  (calculateScore s, s)

/-- Well-formed seating: 4 players whose recorded seats are 0-3.  This is the
invariant `addPlayer` establishes (seat = list position). -/
def SeatsOk (s : GameState) : Prop :=
  s.players.length = 4 ∧ ∀ p ∈ s.players, p.seat < 4

/-- `next` is the first seat of `seats` reached from `cur` by repeatedly
stepping `(+1) % 4`, in at most 4 steps (the specification-side reading of
"advance current turn to the first eligible opposing player in seat-rotation
order"). -/
def FirstEligibleFromTurn (cur next : Nat) (seats : List Nat) : Prop :=
  ∃ k, 1 ≤ k ∧ k ≤ 4 ∧ next = (cur + k) % 4 ∧ next ∈ seats ∧
    ∀ j, 1 ≤ j → j < k → (cur + j) % 4 ∉ seats

/-- The engine state immediately after the bookkeeping steps of a cinch bid
in the normal bidding phase (src/lib/game.js lines 229-239): count the bid,
mark the seat, and record the bidder as current bid holder and cinch bidder
with contract value 11. -/
def cinchMarked (s : GameState) (player : Player) : GameState :=
  { s with bids := s.bids + 1,
           playersBid := addSeatBid s.playersBid player.seat,
           currentBid := 11, highestBidder := some player, bidContract := 11,
           cinchBidder := some player }

/-- Conclusion of the first half of claim C1: an early cinch offer. -/
def EarlyCinchOfferSpec (s : GameState) (player : Player) : Prop :=
  (processBid s player "cinch").1 =
    { finished := false, cinchOverride := some true, cinchOffered := some true } ∧
  ∃ c, (processBid s player "cinch").2 =
      { cinchMarked s player with cinchOverridePhase := true, overrideAttempts := 0,
                                  currentPlayer := c } ∧
    FirstEligibleFromTurn s.currentPlayer c
      ((getEligibleOpposingPlayers (cinchMarked s player)).map Player.seat)

/-- Conclusion of the second half of claim C1: a successful counter-cinch. -/
def OverrideSuccessSpec (s : GameState) (player : Player) : Prop :=
  processBid s player "cinch" =
    ({ finished := true, cinchOverride := some true, overrideSuccessful := some true },
     { s with highestBidder := some player, bidContract := 11,
              cinchBidder := some player,
              playersBid := s.playersBid ++ [player.seat],
              cinchOverridePhase := false, overrideAttempts := 0 })

/-- Concrete state for the C1 early-cinch witness: seat 1 passed, seat 2 is
about to bid. -/
def c1AState : GameState :=
  { baseGame with bids := 1, playersBid := [1], currentPlayer := 2 }

/-- Concrete state for the C1 override witness: seat 2 cinched early, the
offer is with seat 3. -/
def c1BState : GameState :=
  { baseGame with cinchOverridePhase := true,
                  cinchBidder := some (Player.make "p2" 2 "P2"),
                  highestBidder := some (Player.make "p2" 2 "P2"),
                  bidContract := 11, currentBid := 11,
                  bids := 2, playersBid := [1, 2], currentPlayer := 3 }

/-- Concrete state for the C2 witness: override phase, one refusal already
recorded, responder about to pass. -/
def c2State : GameState :=
  { baseGame with cinchOverridePhase := true, overrideAttempts := 1,
                  cinchBidder := some (Player.make "p0" 0 "P0"),
                  playersBid := [0], currentPlayer := 3 }

/-- Concrete state for the C3 witness: override phase, seat 1 already bid. -/
def c3State : GameState :=
  { baseGame with cinchOverridePhase := true,
                  cinchBidder := some (Player.make "p0" 0 "P0"),
                  playersBid := [0, 1], currentPlayer := 1 }

/-- Concrete state for the C9 counterexample: the dealer pointer still holds
its pre-first-hand sentinel -1, yet a cinch bidder and an unbid opposing
player exist. -/
def c9State : GameState :=
  { baseGame with cinchBidder := some (Player.make "p0" 0 "P0"),
                  playersBid := [0], dealer := -1 }

theorem any_seat_eq (E : List Player) (c : Nat) :
    (E.any fun p => decide (p.seat = c)) = true ↔ c ∈ E.map Player.seat := by
  simp only [List.any_eq_true, List.mem_map, decide_eq_true_eq]

/-- The bounded rotation lands on the first eligible seat in rotation order
and changes nothing but the turn pointer. -/
theorem findNextEligible_spec (s : GameState)
    (hcur : s.currentPlayer < 4)
    (hseats : ∀ p ∈ getEligibleOpposingPlayers s, p.seat < 4)
    (hne : getEligibleOpposingPlayers s ≠ []) :
    ∃ c, findNextEligibleOpposingTeamMember s = { s with currentPlayer := c } ∧
      FirstEligibleFromTurn s.currentPlayer c
        ((getEligibleOpposingPlayers s).map Player.seat) := by
  set E := getEligibleOpposingPlayers s with hE
  have hlen : ¬ E.length = 0 := by
    simpa [List.length_eq_zero] using hne
  obtain ⟨p0, hp0⟩ := List.exists_mem_of_ne_nil E hne
  have hp0seat : p0.seat ∈ E.map Player.seat := List.mem_map_of_mem _ hp0
  have hp0lt : p0.seat < 4 := hseats p0 hp0
  set cur := s.currentPlayer with hcurdef
  have e2 : ((cur + 1) % 4 + 1) % 4 = (cur + 2) % 4 := by omega
  have e3 : ((cur + 2) % 4 + 1) % 4 = (cur + 3) % 4 := by omega
  have e4 : ((cur + 3) % 4 + 1) % 4 = (cur + 4) % 4 := by omega
  have e0 : (cur + 4) % 4 = cur := by omega
  unfold findNextEligibleOpposingTeamMember
  rw [← hE, if_neg hlen]
  simp only [findNextLoop, nextPlayer, e2, e3, e4, any_seat_eq]
  split_ifs with h1 h2 h3 h4
  · refine ⟨(cur + 1) % 4, rfl, 1, le_refl 1, by omega, rfl, h1, ?_⟩
    intro j hj1 hj2
    exact absurd (hj1.trans_lt hj2) (lt_irrefl 1)
  · refine ⟨(cur + 2) % 4, rfl, 2, by omega, by omega, rfl, h2, ?_⟩
    intro j hj1 hj2
    interval_cases j
    exact h1
  · refine ⟨(cur + 3) % 4, rfl, 3, by omega, by omega, rfl, h3, ?_⟩
    intro j hj1 hj2
    interval_cases j
    · exact h1
    · exact h2
  · refine ⟨(cur + 4) % 4, rfl, 4, by omega, by omega, rfl, ?_, ?_⟩
    · have hne1 : p0.seat ≠ (cur + 1) % 4 := fun h => h1 (h ▸ hp0seat)
      have hne2 : p0.seat ≠ (cur + 2) % 4 := fun h => h2 (h ▸ hp0seat)
      have hne3 : p0.seat ≠ (cur + 3) % 4 := fun h => h3 (h ▸ hp0seat)
      have : p0.seat = (cur + 4) % 4 := by omega
      exact this ▸ hp0seat
    · intro j hj1 hj2
      interval_cases j
      · exact h1
      · exact h2
      · exact h3
  · exfalso
    have hne1 : p0.seat ≠ (cur + 1) % 4 := fun h => h1 (h ▸ hp0seat)
    have hne2 : p0.seat ≠ (cur + 2) % 4 := fun h => h2 (h ▸ hp0seat)
    have hne3 : p0.seat ≠ (cur + 3) % 4 := fun h => h3 (h ▸ hp0seat)
    have hne4 : p0.seat ≠ (cur + 4) % 4 := fun h => h4 (h ▸ hp0seat)
    omega

/-- `getEligibleOpposingPlayers` only reads `players`, `cinchBidder` and
`playersBid`. -/
theorem getEligible_congr (s t : GameState) (hp : t.players = s.players)
    (hcb : t.cinchBidder = s.cinchBidder) (hpb : t.playersBid = s.playersBid) :
    getEligibleOpposingPlayers t = getEligibleOpposingPlayers s := by
  unfold getEligibleOpposingPlayers
  rw [hp, hcb, hpb]

/-- With the override sub-phase active, `processBid` runs its override
branch. -/
theorem processBid_override_eq (s : GameState) (player : Player) (bid : String)
    (hov : s.cinchOverridePhase = true) :
    processBid s player bid = processBidOverride s player bid ((BID_VALUES bid).getD 0) := by
  simp [processBid, hov]

/-- C6: `getWinningTeam` returns `none` when both scores are below 21; when
both are at least 21 it returns the strictly higher team and `none` on a tie;
when exactly one team is at least 21 it returns that team. -/
theorem getWinningTeam_spec (s : GameState) :
    (s.scores.team1 < 21 ∧ s.scores.team2 < 21 → getWinningTeam s = none) ∧
    (21 ≤ s.scores.team1 ∧ 21 ≤ s.scores.team2 →
      (s.scores.team2 < s.scores.team1 → getWinningTeam s = some 1) ∧
      (s.scores.team1 < s.scores.team2 → getWinningTeam s = some 2) ∧
      (s.scores.team1 = s.scores.team2 → getWinningTeam s = none)) ∧
    (21 ≤ s.scores.team1 ∧ s.scores.team2 < 21 → getWinningTeam s = some 1) ∧
    (21 ≤ s.scores.team2 ∧ s.scores.team1 < 21 → getWinningTeam s = some 2) := by
  unfold getWinningTeam
  refine ⟨?_, ?_, ?_, ?_⟩
  · rintro ⟨h1, h2⟩
    split_ifs with hb ha hbb <;> first | rfl | omega
  · rintro ⟨h1, h2⟩
    refine ⟨?_, ?_, ?_⟩ <;> intro h <;> split_ifs <;> first | rfl | omega
  · rintro ⟨h1, h2⟩
    split_ifs <;> first | rfl | omega
  · rintro ⟨h1, h2⟩
    split_ifs <;> first | rfl | omega

/-- Witness for C6 at concrete scores. -/
theorem getWinningTeam_spec_witness :
    getWinningTeam { initialState with scores := { team1 := 22, team2 := 21 } } = some 1 := by
  refine ((getWinningTeam_spec _).2.1 ⟨by decide, by decide⟩).1 (by decide)

/-- C4: `applyScore` always credits the non-bidding team with its earned
points; a cinch contract (11) succeeds exactly on 4 earned points (+11 on
success, -11 on failure); any other contract succeeds exactly when earned
points reach the contract (+min(points,4) on success, -contract on failure);
`pointsAwarded` is present exactly on success. -/
theorem applyScore_spec (s : GameState) (sr : ScoreResults) (hb : Player)
    (hhb : s.highestBidder = some hb) (hteam : hb.team = 1 ∨ hb.team = 2) :
    ApplyScoreSpec s sr hb := by
  unfold ApplyScoreSpec applyScore
  rw [hhb]
  rcases hteam with h1 | h1 <;>
    simp only [h1] <;>
    split_ifs with hc h4 <;>
    simp_all [Scores.get, Scores.add, ScoreTeamPoints.get] <;>
    omega

/-- C3: a cinch counter-bid from a player who already bid this hand is
rejected with an explicit error, `finished:false`, `cinchOverride:true`; the
sub-phase stays active and the state is unchanged except the attempt counter,
which advances by exactly 1. -/
theorem processBid_overrideRebid_spec (s : GameState) (player : Player)
    (hov : s.cinchOverridePhase = true) (hbid : player.seat ∈ s.playersBid) :
    processBid s player "cinch" =
      ({ finished := false, cinchOverride := some true,
         error := some "Player has already bid this hand" },
       { s with overrideAttempts := s.overrideAttempts + 1 }) := by
  rw [processBid_override_eq s player "cinch" hov]
  simp [processBidOverride, hbid]

/-- Witness for C3 at a concrete state: seat 1 has already bid. -/
theorem processBid_overrideRebid_spec_witness :
    processBid c3State (Player.make "p1" 1 "P1") "cinch" =
      ({ finished := false, cinchOverride := some true,
         error := some "Player has already bid this hand" },
       { c3State with overrideAttempts := c3State.overrideAttempts + 1 }) :=
  processBid_overrideRebid_spec c3State (Player.make "p1" 1 "P1") rfl (by decide)

/-- C9 (amended): `getEligibleOpposingPlayers` returns exactly the seated
players whose team differs from the cinch bidder's team and who have not yet
bid this hand. -/
theorem getEligibleOpposingPlayers_amended (s : GameState) (cb : Player)
    (hcb : s.cinchBidder = some cb) (p : Player) :
    p ∈ getEligibleOpposingPlayers s ↔
      p ∈ s.players ∧ p.team ≠ cb.team ∧ p.seat ∉ s.playersBid := by
  simp [getEligibleOpposingPlayers, hcb, List.mem_filter, decide_eq_true_eq,
        and_assoc]

/-- Witness for the amended C9 at a concrete state. -/
theorem getEligibleOpposingPlayers_amended_witness :
    Player.make "p1" 1 "P1" ∈ getEligibleOpposingPlayers c9State ↔
      Player.make "p1" 1 "P1" ∈ c9State.players ∧
      (Player.make "p1" 1 "P1").team ≠ (Player.make "p0" 0 "P0").team ∧
      (Player.make "p1" 1 "P1").seat ∉ c9State.playersBid :=
  getEligibleOpposingPlayers_amended c9State (Player.make "p0" 0 "P0") rfl _

/-- C9 counterexample: with the dealer pointer at the invalid sentinel -1 and
players seated, `getEligibleOpposingPlayers` still returns a non-empty list —
the claimed defensive empty-list behavior does not exist in the code. -/
theorem getEligibleOpposingPlayers_dealer_counterexample :
    c9State.dealer = -1 ∧ 0 < c9State.players.length ∧
    getEligibleOpposingPlayers c9State ≠ [] := by decide

/-- C2: while the override sub-phase is active, a non-cinch response first
advances the attempt counter; if the counter reaches the number of eligible
opposing players the sub-phase exits (counter reset, contract retained) with
`{finished:true, cinchOverride:true, overrideSuccessful:false}`; otherwise
the turn advances to the next eligible opposing seat in rotation (wrapping,
at most 4 steps) and the result is `{finished:false, cinchOverride:true}`;
the rotation helper is a no-op when the eligible set is empty. -/
theorem processBid_overridePass_spec (s : GameState) (player : Player) (bid : String)
    (hov : s.cinchOverridePhase = true) (hbid : bid ≠ "cinch")
    (hcur : s.currentPlayer < 4)
    (hseats : ∀ p ∈ getEligibleOpposingPlayers s, p.seat < 4) :
    ((getEligibleOpposingPlayers s).length ≤ s.overrideAttempts + 1 →
      processBid s player bid =
        ({ finished := true, cinchOverride := some true, overrideSuccessful := some false },
         { s with cinchOverridePhase := false, overrideAttempts := 0 })) ∧
    (s.overrideAttempts + 1 < (getEligibleOpposingPlayers s).length →
      (processBid s player bid).1 = { finished := false, cinchOverride := some true } ∧
      ∃ c, (processBid s player bid).2 =
          { s with overrideAttempts := s.overrideAttempts + 1, currentPlayer := c } ∧
        FirstEligibleFromTurn s.currentPlayer c
          ((getEligibleOpposingPlayers s).map Player.seat)) ∧
    (∀ t, getEligibleOpposingPlayers t = [] → findNextEligibleOpposingTeamMember t = t) := by
  have hel : getEligibleOpposingPlayers { s with overrideAttempts := s.overrideAttempts + 1 } =
      getEligibleOpposingPlayers s := getEligible_congr s _ rfl rfl rfl
  have hkey : processBid s player bid =
      (if (getEligibleOpposingPlayers s).length ≤ s.overrideAttempts + 1 then
        ({ finished := true, cinchOverride := some true, overrideSuccessful := some false },
         { s with cinchOverridePhase := false, overrideAttempts := 0 })
      else
        ({ finished := false, cinchOverride := some true },
         findNextEligibleOpposingTeamMember
           { s with overrideAttempts := s.overrideAttempts + 1 })) := by
    rw [processBid_override_eq s player bid hov]
    simp [processBidOverride, hbid, hel]
  refine ⟨?_, ?_, ?_⟩
  · intro hle
    rw [hkey, if_pos hle]
  · intro hlt
    rw [hkey, if_neg (by omega)]
    have hne : getEligibleOpposingPlayers
        { s with overrideAttempts := s.overrideAttempts + 1 } ≠ [] := by
      rw [hel]
      intro h
      rw [h] at hlt
      simp at hlt
    have hseats' : ∀ p ∈ getEligibleOpposingPlayers
        { s with overrideAttempts := s.overrideAttempts + 1 }, p.seat < 4 := by
      rw [hel]
      exact hseats
    obtain ⟨c, hc, hfirst⟩ :=
      findNextEligible_spec { s with overrideAttempts := s.overrideAttempts + 1 }
        hcur hseats' hne
    exact ⟨rfl, c, by rw [hc], hel ▸ hfirst⟩
  · intro t ht
    unfold findNextEligibleOpposingTeamMember
    rw [ht]
    simp

/-- Witness for C2 at a concrete state: the second refusal exhausts the two
eligible opposing players. -/
theorem processBid_overridePass_spec_witness :
    processBid c2State (Player.make "p3" 3 "P3") "pass" =
      ({ finished := true, cinchOverride := some true, overrideSuccessful := some false },
       { c2State with cinchOverridePhase := false, overrideAttempts := 0 }) :=
  (processBid_overridePass_spec c2State (Player.make "p3" 3 "P3") "pass"
    rfl (by decide) (by decide) (by decide)).1 (by decide)

/-- C1: an early cinch (before the 4th bid) with eligible opposing players
records the bidder as highest bidder and cinch bidder with contract 11,
enters the override sub-phase with the counter at 0, moves the turn to the
first eligible opposing seat in rotation, and returns
`{finished:false, cinchOverride:true, cinchOffered:true}`; a subsequent cinch
from an eligible opposing player returns
`{finished:true, cinchOverride:true, overrideSuccessful:true}`, makes that
player highest bidder and cinch bidder with contract 11, marks them as having
bid, and exits the sub-phase with the counter reset. -/
theorem processBid_earlyCinch_override_spec :
    (∀ s player, SeatsOk s → s.cinchOverridePhase = false → s.currentPlayer < 4 →
      s.bids + 1 ≠ 4 → getEligibleOpposingPlayers (cinchMarked s player) ≠ [] →
      EarlyCinchOfferSpec s player) ∧
    (∀ s player, s.cinchOverridePhase = true →
      player ∈ getEligibleOpposingPlayers s → OverrideSuccessSpec s player) := by
  constructor
  · rintro s player ⟨hlen4, hseatlt⟩ hov hcur hbids hne
    have hel4 : getEligibleOpposingPlayers
        { cinchMarked s player with cinchOverridePhase := true, overrideAttempts := 0 } =
        getEligibleOpposingPlayers (cinchMarked s player) :=
      getEligible_congr (cinchMarked s player) _ rfl rfl rfl
    have heval : processBid s player "cinch" =
        ({ finished := false, cinchOverride := some true, cinchOffered := some true },
         findNextEligibleOpposingTeamMember
           { cinchMarked s player with cinchOverridePhase := true, overrideAttempts := 0 }) := by
      simp [processBid, hov, hbids, cinchMarked, BID_VALUES]
      exact fun h => hne ((getEligible_congr (cinchMarked s player) _ rfl rfl rfl).symm.trans h)
    have hseats4 : ∀ p ∈ getEligibleOpposingPlayers
        { cinchMarked s player with cinchOverridePhase := true, overrideAttempts := 0 },
        p.seat < 4 := by
      rw [hel4]
      intro p hp
      have hp2 : p ∈ ((cinchMarked s player).players.filter
          (fun q => decide (q.team ≠ player.team ∧
            q.seat ∉ (cinchMarked s player).playersBid))) := hp
      exact hseatlt p (List.mem_of_mem_filter hp2)
    have hne4 : getEligibleOpposingPlayers
        { cinchMarked s player with cinchOverridePhase := true, overrideAttempts := 0 } ≠ [] := by
      rw [hel4]
      exact hne
    obtain ⟨c, hc, hfirst⟩ :=
      findNextEligible_spec
        { cinchMarked s player with cinchOverridePhase := true, overrideAttempts := 0 }
        hcur hseats4 hne4
    refine ⟨by rw [heval], c, ?_, hel4 ▸ hfirst⟩
    rw [heval, hc]
  · intro s player hov hmem
    rcases hcb : s.cinchBidder with _ | cb
    · rw [getEligibleOpposingPlayers, hcb] at hmem
      simp at hmem
    · rw [getEligibleOpposingPlayers, hcb] at hmem
      have hnotbid : player.seat ∉ s.playersBid := by
        have := (List.mem_filter.mp hmem).2
        simp only [decide_eq_true_eq] at this
        exact this.2
      unfold OverrideSuccessSpec
      rw [processBid_override_eq s player "cinch" hov]
      simp [processBidOverride, hnotbid, addSeatBid, BID_VALUES]

/-- Witness for C1: the early offer at `c1AState` (seat 2 cinches after one
pass) and the successful counter-cinch at `c1BState` (seat 3 responds). -/
theorem processBid_earlyCinch_override_spec_witness :
    EarlyCinchOfferSpec c1AState (Player.make "p2" 2 "P2") ∧
    OverrideSuccessSpec c1BState (Player.make "p3" 3 "P3") :=
  ⟨processBid_earlyCinch_override_spec.1 c1AState (Player.make "p2" 2 "P2")
      ⟨by decide, by decide⟩ rfl (by decide) (by decide) (by decide),
   processBid_earlyCinch_override_spec.2 c1BState (Player.make "p3" 3 "P3")
      rfl (by decide)⟩

/-- Witness for C4 at the spec's worked example: contract 2, teamPoints
`{1:5, 2:1}`, bidding team 1. -/
theorem applyScore_spec_witness :
    ApplyScoreSpec c4State c4SR (Player.make "p0" 0 "P0") :=
  applyScore_spec c4State c4SR (Player.make "p0" 0 "P0") rfl (Or.inl rfl)

theorem trickFold_eq_foldl (trump : Option String) (rest : List TrickPlay) (w : TrickPlay) :
    trickFold trump w rest =
      rest.foldl (fun acc p => if supersedes trump acc p then p else acc) w := by
  induction rest generalizing w with
  | nil => rfl
  | cons p t ih =>
    simp only [trickFold, List.foldl_cons]
    by_cases h1 : some p.card.suit = trump ∧ ¬ some w.card.suit = trump
    · rw [if_pos h1, if_pos (show supersedes trump w p from Or.inl h1), ih]
    · rw [if_neg h1]
      by_cases h2 : p.card.suit = w.card.suit ∧
          w.card.getRankIndex < p.card.getRankIndex
      · rw [if_pos h2, if_pos (show supersedes trump w p from Or.inr h2), ih]
      · rw [if_neg h2,
          if_neg (show ¬ supersedes trump w p from fun h => h.elim h1 h2), ih]

theorem trickFold_mem (trump : Option String) (rest : List TrickPlay) (w : TrickPlay) :
    trickFold trump w rest ∈ w :: rest := by
  induction rest generalizing w with
  | nil => simp [trickFold]
  | cons p t ih =>
    simp only [trickFold]
    split_ifs with h1 h2
    · exact List.mem_cons_of_mem w (ih p)
    · exact List.mem_cons_of_mem w (ih p)
    · rcases List.mem_cons.mp (ih w) with h | h
      · rw [h]
        exact List.mem_cons_self _ _
      · exact List.mem_cons_of_mem w (List.mem_cons_of_mem p h)

theorem trickFold_suit (trump : Option String) (rest : List TrickPlay) (w : TrickPlay) :
    (trickFold trump w rest).card.suit = w.card.suit ∨
    some (trickFold trump w rest).card.suit = trump := by
  induction rest generalizing w with
  | nil => exact Or.inl rfl
  | cons p t ih =>
    simp only [trickFold]
    split_ifs with h1 h2
    · rcases ih p with h | h
      · refine Or.inr ?_
        rw [h]
        exact h1.1
      · exact Or.inr h
    · rcases ih p with h | h
      · refine Or.inl ?_
        rw [h]
        exact h2.1
      · exact Or.inr h
    · exact ih w

/-- If the tentative winner is trump, the reduction stays on trump and only
climbs in rank; every later trump play is accounted for. -/
theorem trickFold_trump_acc (trump : Option String) (rest : List TrickPlay) (w : TrickPlay)
    (hw : some w.card.suit = trump) :
    some (trickFold trump w rest).card.suit = trump ∧
    w.card.getRankIndex ≤ (trickFold trump w rest).card.getRankIndex ∧
    ∀ q ∈ rest, some q.card.suit = trump →
      q.card.getRankIndex ≤ (trickFold trump w rest).card.getRankIndex := by
  induction rest generalizing w with
  | nil => exact ⟨hw, le_refl _, by simp⟩
  | cons p t ih =>
    simp only [trickFold]
    split_ifs with h1 h2
    · exact absurd hw h1.2
    · have hp : some p.card.suit = trump := by
        rw [h2.1]
        exact hw
      obtain ⟨ha, hb, hc⟩ := ih p hp
      refine ⟨ha, le_trans (le_of_lt h2.2) hb, ?_⟩
      intro q hq hqt
      rcases List.mem_cons.mp hq with rfl | hq'
      · exact hb
      · exact hc q hq' hqt
    · obtain ⟨ha, hb, hc⟩ := ih w hw
      refine ⟨ha, hb, ?_⟩
      intro q hq hqt
      rcases List.mem_cons.mp hq with rfl | hq'
      · have hsuit : q.card.suit = w.card.suit := Option.some_inj.mp (hqt.trans hw.symm)
        have hnlt : ¬ w.card.getRankIndex < q.card.getRankIndex :=
          fun hlt => h2 ⟨hsuit, hlt⟩
        exact le_trans (Nat.le_of_not_lt hnlt) hb
      · exact hc q hq' hqt

/-- Whenever some play of the trick is trump, the reduction result is a trump
play of maximal rank index among the trump plays. -/
theorem trickFold_trump_max (trump : Option String) (rest : List TrickPlay) (w : TrickPlay)
    (h : some w.card.suit = trump ∨ ∃ p ∈ rest, some p.card.suit = trump) :
    some (trickFold trump w rest).card.suit = trump ∧
    ∀ q ∈ w :: rest, some q.card.suit = trump →
      q.card.getRankIndex ≤ (trickFold trump w rest).card.getRankIndex := by
  induction rest generalizing w with
  | nil =>
    rcases h with hw | ⟨p, hp, _⟩
    · refine ⟨hw, ?_⟩
      intro q hq _
      rcases List.mem_cons.mp hq with rfl | h0
      · exact le_refl _
      · simp at h0
    · simp at hp
  | cons p t ih =>
    by_cases hw : some w.card.suit = trump
    · obtain ⟨ha, hb, hc⟩ := trickFold_trump_acc trump (p :: t) w hw
      refine ⟨ha, ?_⟩
      intro q hq hqt
      rcases List.mem_cons.mp hq with rfl | hq'
      · exact hb
      · exact hc q hq' hqt
    · have hex : ∃ q ∈ p :: t, some q.card.suit = trump := by
        rcases h with h | h
        · exact absurd h hw
        · exact h
      simp only [trickFold]
      split_ifs with h1 h2
      · obtain ⟨ha, hb, hc⟩ := trickFold_trump_acc trump t p h1.1
        refine ⟨ha, ?_⟩
        intro q hq hqt
        rcases List.mem_cons.mp hq with rfl | hq'
        · exact absurd hqt hw
        · rcases List.mem_cons.mp hq' with rfl | hq2
          · exact hb
          · exact hc q hq2 hqt
      · have hpn : ¬ some p.card.suit = trump := by
          rw [h2.1]
          exact hw
        have hex' : some p.card.suit = trump ∨ ∃ q ∈ t, some q.card.suit = trump := by
          obtain ⟨q, hq, hqt⟩ := hex
          rcases List.mem_cons.mp hq with rfl | hq'
          · exact Or.inl hqt
          · exact Or.inr ⟨q, hq', hqt⟩
        obtain ⟨ha, hb⟩ := ih p hex'
        refine ⟨ha, ?_⟩
        intro q hq hqt
        rcases List.mem_cons.mp hq with rfl | hq'
        · exact absurd hqt hw
        · exact hb q hq' hqt
      · have hpn : ¬ some p.card.suit = trump := fun hpt => h1 ⟨hpt, hw⟩
        have hex' : some w.card.suit = trump ∨ ∃ q ∈ t, some q.card.suit = trump := by
          obtain ⟨q, hq, hqt⟩ := hex
          rcases List.mem_cons.mp hq with rfl | hq'
          · exact absurd hqt hpn
          · exact Or.inr ⟨q, hq', hqt⟩
        obtain ⟨ha, hb⟩ := ih w hex'
        refine ⟨ha, ?_⟩
        intro q hq hqt
        rcases List.mem_cons.mp hq with rfl | hq'
        · exact hb q (List.mem_cons_self _ _) hqt
        · rcases List.mem_cons.mp hq' with rfl | hq2
          · exact absurd hqt hpn
          · exact hb q (List.mem_cons_of_mem _ hq2) hqt

/-- Absent trump, the reduction result keeps the led suit and is of maximal
rank index among plays of the led suit. -/
theorem trickFold_notrump_max (trump : Option String) (rest : List TrickPlay) (w : TrickPlay)
    (h : ∀ q ∈ w :: rest, ¬ some q.card.suit = trump) :
    (trickFold trump w rest).card.suit = w.card.suit ∧
    ∀ q ∈ w :: rest, q.card.suit = w.card.suit →
      q.card.getRankIndex ≤ (trickFold trump w rest).card.getRankIndex := by
  induction rest generalizing w with
  | nil =>
    refine ⟨rfl, ?_⟩
    intro q hq _
    rcases List.mem_cons.mp hq with rfl | h0
    · exact le_refl _
    · simp at h0
  | cons p t ih =>
    have hw : ¬ some w.card.suit = trump := h w (List.mem_cons_self _ _)
    have hp : ¬ some p.card.suit = trump :=
      h p (List.mem_cons_of_mem _ (List.mem_cons_self _ _))
    simp only [trickFold]
    split_ifs with h1 h2
    · exact absurd h1.1 hp
    · have hall : ∀ q ∈ p :: t, ¬ some q.card.suit = trump :=
        fun q hq => h q (List.mem_cons_of_mem _ hq)
      obtain ⟨ha, hb⟩ := ih p hall
      refine ⟨ha.trans h2.1, ?_⟩
      intro q hq hqs
      rcases List.mem_cons.mp hq with rfl | hq'
      · exact le_trans (le_of_lt h2.2) (hb p (List.mem_cons_self _ _) rfl)
      · exact hb q hq' (hqs.trans h2.1.symm)
    · have hall : ∀ q ∈ w :: t, ¬ some q.card.suit = trump := by
        intro q hq
        rcases List.mem_cons.mp hq with rfl | hq'
        · exact hw
        · exact h q (List.mem_cons_of_mem _ (List.mem_cons_of_mem _ hq'))
      obtain ⟨ha, hb⟩ := ih w hall
      refine ⟨ha, ?_⟩
      intro q hq hqs
      rcases List.mem_cons.mp hq with rfl | hq'
      · exact hb q (List.mem_cons_self _ _) hqs
      · rcases List.mem_cons.mp hq' with rfl | hq2
        · have hle : q.card.getRankIndex ≤ w.card.getRankIndex :=
            Nat.le_of_not_lt (fun hlt => h2 ⟨hqs, hlt⟩)
          exact le_trans hle (hb w (List.mem_cons_self _ _) rfl)
        · exact hb q (List.mem_cons_of_mem _ hq2) hqs

/-- C5: `resolveTrick` is the single left-to-right pass in which a later play
supersedes the tentative winner iff it is trump over non-trump or same-suit
with strictly higher rank; the winner is one of the plays and is led-suit or
trump (an off-suit non-trump play never wins); when any trump is played the
winner is a trump of maximal rank; absent trump the winner has the led suit
and maximal rank within it; and on the spec's example with trump ♠ the ♠2 at
seat 2 wins. -/
theorem resolveTrick_spec :
    (∀ s : GameState, resolveTrick s = resolveSpecFold s.trumpSuit s.trickPlays) ∧
    (∀ (s : GameState) (w : TrickPlay) (rest : List TrickPlay),
      s.trickPlays = w :: rest → ResolveTrickNonEmptySpec s w rest) ∧
    resolveTrick exTrickState = some ⟨2, ⟨"♠", "2"⟩, "P2"⟩ := by
  refine ⟨?_, ?_, ?_⟩
  · intro s
    rcases hs : s.trickPlays with _ | ⟨w, rest⟩
    · simp [resolveTrick, resolveSpecFold, hs]
    · simp [resolveTrick, resolveSpecFold, hs, trickFold_eq_foldl]
  · intro s w rest hs
    refine ⟨trickFold s.trumpSuit w rest, by simp [resolveTrick, hs], ?_, ?_, ?_, ?_⟩
    · rw [hs]
      exact trickFold_mem _ _ _
    · exact trickFold_suit _ _ _
    · intro hex
      rw [hs] at hex
      rw [hs]
      have h' : some w.card.suit = s.trumpSuit ∨
          ∃ p ∈ rest, some p.card.suit = s.trumpSuit := by
        obtain ⟨p, hp, hpt⟩ := hex
        rcases List.mem_cons.mp hp with rfl | hp'
        · exact Or.inl hpt
        · exact Or.inr ⟨p, hp', hpt⟩
      exact trickFold_trump_max s.trumpSuit rest w h'
    · intro hall
      rw [hs] at hall
      rw [hs]
      exact trickFold_notrump_max s.trumpSuit rest w hall
  · rfl

/-- Witness for C5 at the spec's example trick. -/
theorem resolveTrick_spec_witness :
    ResolveTrickNonEmptySpec exTrickState ⟨0, ⟨"♥", "A"⟩, "P0"⟩
      [⟨1, ⟨"♥", "K"⟩, "P1"⟩, ⟨2, ⟨"♠", "2"⟩, "P2"⟩, ⟨3, ⟨"♥", "Q"⟩, "P3"⟩] :=
  resolveTrick_spec.2.1 exTrickState ⟨0, ⟨"♥", "A"⟩, "P0"⟩
    [⟨1, ⟨"♥", "K"⟩, "P1"⟩, ⟨2, ⟨"♠", "2"⟩, "P2"⟩, ⟨3, ⟨"♥", "Q"⟩, "P3"⟩] rfl

theorem keptFrom_all_lt (S : List Nat) (l : List Card) (k : Nat)
    (h : ∀ j ∈ S, j < k) : keptFrom S k l = l := by
  induction l generalizing k with
  | nil => rfl
  | cons c cs ih =>
    simp only [keptFrom]
    rw [if_neg (fun hk => absurd (h k hk) (lt_irrefl k)),
        ih (k + 1) (fun j hj => Nat.lt_succ_of_lt (h j hj))]

theorem keptFrom_congr (S S2 : List Nat) (h : ∀ j, j ∈ S ↔ j ∈ S2)
    (l : List Card) (k : Nat) : keptFrom S k l = keptFrom S2 k l := by
  induction l generalizing k with
  | nil => rfl
  | cons c cs ih =>
    simp only [keptFrom]
    by_cases hk : k ∈ S
    · rw [if_pos hk, if_pos ((h k).mp hk), ih]
    · rw [if_neg hk, if_neg (fun hk2 => hk ((h k).mpr hk2)), ih]

/-- Erasing position `k + i` commutes with original-position filtering as
long as all other tracked positions are smaller: processing indices from
highest to lowest keeps lower positions stable. -/
theorem keptFrom_eraseIdx (l : List Card) (i k : Nat) (S : List Nat)
    (hS : ∀ j ∈ S, j < k + i) (hi : i < l.length) :
    keptFrom S k (l.eraseIdx i) = keptFrom ((k + i) :: S) k l := by
  induction l generalizing i k with
  | nil => simp at hi
  | cons c cs ih =>
    cases i with
    | zero =>
      have h1 : ∀ j ∈ S, j < k := by simpa using hS
      simp only [List.eraseIdx_cons_zero]
      rw [keptFrom_all_lt S cs k h1]
      simp only [keptFrom]
      rw [if_pos (by exact List.mem_cons_self _ _),
          keptFrom_all_lt ((k + 0) :: S) cs (k + 1) ?bound]
      case bound =>
        intro j hj
        rcases List.mem_cons.mp hj with rfl | hj2
        · omega
        · exact Nat.lt_succ_of_lt (h1 j hj2)
    | succ i2 =>
      simp only [List.eraseIdx_cons_succ]
      simp only [keptFrom]
      have hne : k ≠ k + (i2 + 1) := by omega
      have hmemiff : (k ∈ (k + (i2 + 1)) :: S) ↔ k ∈ S := by
        simp [List.mem_cons, hne]
      have harith : k + 1 + i2 = k + (i2 + 1) := by omega
      have ihx := ih i2 (k + 1) (fun j hj => by have := hS j hj; omega)
        (by simp only [List.length_cons] at hi; omega)
      rw [harith] at ihx
      by_cases hk : k ∈ S
      · rw [if_pos hk, if_pos (hmemiff.mpr hk), ihx]
      · rw [if_neg hk, if_neg (fun h2 => hk (hmemiff.mp h2)), ihx]

theorem get?_eraseIdx_of_lt (l : List Card) (i j : Nat) (h : j < i) :
    (l.eraseIdx i).get? j = l.get? j := by
  induction l generalizing i j with
  | nil => rfl
  | cons c cs ih =>
    cases i with
    | zero => omega
    | succ i2 =>
      cases j with
      | zero => rfl
      | succ j2 =>
        simp only [List.eraseIdx_cons_succ, List.get?_cons_succ]
        exact ih i2 j2 (by omega)

/-- The splice loop on a strictly descending in-range index list removes
exactly the cards at those original positions. -/
theorem spliceOutEach_spec (sorted : List Nat) (l : List Card)
    (hsort : List.Pairwise (· > ·) sorted) (hb : ∀ i ∈ sorted, i < l.length) :
    (spliceOutEach sorted l).1 = keptFrom sorted 0 l ∧
    (spliceOutEach sorted l).2 = sorted.map l.get? := by
  induction sorted generalizing l with
  | nil => exact ⟨(keptFrom_all_lt [] l 0 (by simp)).symm, rfl⟩
  | cons i rest ih =>
    have hpc := List.pairwise_cons.mp hsort
    have hi : i < l.length := hb i (List.mem_cons_self _ _)
    have hlen : (l.eraseIdx i).length + 1 = l.length := List.length_eraseIdx_add_one hi
    have hbrest : ∀ j ∈ rest, j < (l.eraseIdx i).length := by
      intro j hj
      have := hpc.1 j hj
      omega
    obtain ⟨ih1, ih2⟩ := ih (l.eraseIdx i) hpc.2 hbrest
    simp only [spliceOutEach]
    constructor
    · rw [ih1, keptFrom_eraseIdx l i 0 rest (fun j hj => by have := hpc.1 j hj; omega) hi,
          Nat.zero_add]
    · rw [ih2, List.map_cons]
      congr 1
      exact List.map_congr_left (fun j hj => get?_eraseIdx_of_lt l i j (hpc.1 j hj))

/-- C8: for distinct in-range indices, `Hand.removeCards` removes exactly the
cards at those positions of the hand at call time (processing indices in
descending order), keeps the rest in order, and gives the same result for
every permutation of the index list. -/
theorem removeCards_spec (cards : List Card) (indices : List Nat)
    (hnd : indices.Nodup) (hb : ∀ i ∈ indices, i < cards.length) :
    RemoveCardsSpec cards indices := by
  have hperm : sortDesc indices |>.Perm indices := List.perm_insertionSort _ indices
  have hsorted : List.Sorted (· ≥ ·) (sortDesc indices) :=
    List.sorted_insertionSort _ indices
  have hnd2 : (sortDesc indices).Nodup := hperm.nodup_iff.mpr hnd
  have hgt : List.Pairwise (· > ·) (sortDesc indices) :=
    (hsorted.and hnd2).imp (fun h => lt_of_le_of_ne h.1 (Ne.symm h.2))
  have hb2 : ∀ i ∈ sortDesc indices, i < cards.length :=
    fun i hi => hb i (hperm.mem_iff.mp hi)
  obtain ⟨h1, h2⟩ := spliceOutEach_spec (sortDesc indices) cards hgt hb2
  refine ⟨?_, h2, ?_⟩
  · show (spliceOutEach (sortDesc indices) cards).1 = keptFrom indices 0 cards
    rw [h1]
    exact keptFrom_congr _ _ (fun j => hperm.mem_iff) cards 0
  · intro ind2 hp
    unfold Hand.removeCards
    have hs : sortDesc ind2 = sortDesc indices :=
      List.eq_of_perm_of_sorted
        ((List.perm_insertionSort _ ind2).trans (hp.trans hperm.symm))
        (List.sorted_insertionSort _ ind2) hsorted
    rw [hs]

/-- Witness for C8: removing positions 1 and 3 of a concrete 4-card hand. -/
theorem removeCards_spec_witness : RemoveCardsSpec exCards [1, 3] :=
  removeCards_spec exCards [1, 3] (by decide) (by decide)

theorem sumMap_set (f : Player → Nat) (ps : List Player) (i : Nat) (pl p2 : Player)
    (h : ps.get? i = some pl) :
    ((ps.set i p2).map f).sum + f pl = (ps.map f).sum + f p2 := by
  induction ps generalizing i with
  | nil => simp at h
  | cons a t ih =>
    cases i with
    | zero =>
      simp only [List.get?_cons_zero, Option.some.injEq] at h
      subst h
      simp only [List.set_cons_zero, List.map_cons, List.sum_cons]
      omega
    | succ i2 =>
      simp only [List.get?_cons_succ] at h
      have := ih i2 h
      simp only [List.set_cons_succ, List.map_cons, List.sum_cons]
      omega

theorem swapIdx_length (l : List Card) (i j : Nat) :
    (swapIdx l i j).length = l.length := by
  rcases hgi : l[i]? with _ | a <;> rcases hgj : l[j]? with _ | b <;>
    simp [swapIdx, hgi, hgj]

theorem fisherYatesAux_length (i : Nat) (tape : List Nat) (cards : List Card) :
    (fisherYatesAux tape i cards).length = cards.length := by
  induction i generalizing tape cards with
  | zero => cases tape <;> rfl
  | succ i2 ih =>
    cases tape with
    | nil => rfl
    | cons t ts =>
      simp only [fisherYatesAux]
      rw [ih ts, swapIdx_length]

theorem shuffle_length (tape : List Nat) (cards : List Card) :
    (shuffle tape cards).length = cards.length :=
  fisherYatesAux_length (cards.length - 1) tape cards

theorem createDeck_length : createDeck.length = 52 := rfl

theorem dealInvariant_rfl (s : GameState) : DealInvariant s s := ⟨rfl, rfl, rfl, rfl⟩

theorem dealInvariant_trans {s t u : GameState}
    (h1 : DealInvariant s t) (h2 : DealInvariant t u) : DealInvariant s u :=
  ⟨h2.1.trans h1.1, h2.2.1.trans h1.2.1, h2.2.2.1.trans h1.2.2.1,
   h2.2.2.2.trans h1.2.2.2⟩

theorem dealOneTo_inv (s : GameState) (p : Nat) (hp : p < s.players.length) :
    DealInvariant s (dealOneTo s p) := by
  rcases hdeck : s.deck with _ | ⟨card, rest⟩
  · unfold dealOneTo
    rw [hdeck]
    exact dealInvariant_rfl s
  · have hpl : s.players.get? p = some (s.players.get ⟨p, hp⟩) := List.get?_eq_get hp
    have hEq : dealOneTo s p =
        { s with deck := rest,
                 players := s.players.set p
                   { s.players.get ⟨p, hp⟩ with
                     hand := (s.players.get ⟨p, hp⟩).hand ++ [card] } } := by
      unfold dealOneTo addCardToHandAt
      rw [hdeck, hpl]
    rw [hEq]
    unfold DealInvariant
    dsimp only
    rw [hdeck]
    refine ⟨?_, ?_, rfl, by simp⟩
    · have h1 := sumMap_set (fun q => q.hand.length) s.players p (s.players.get ⟨p, hp⟩)
        { s.players.get ⟨p, hp⟩ with hand := (s.players.get ⟨p, hp⟩).hand ++ [card] } hpl
      dsimp only at h1
      simp only [List.length_append, List.length_singleton] at h1
      unfold handsCount
      simp only [List.length_cons]
      omega
    · have h2 := sumMap_set (fun q => q.wonCards.length) s.players p (s.players.get ⟨p, hp⟩)
        { s.players.get ⟨p, hp⟩ with hand := (s.players.get ⟨p, hp⟩).hand ++ [card] } hpl
      dsimp only at h2
      unfold wonCount
      omega

theorem foldl_dealOneTo_inv (l : List Nat) (s : GameState)
    (hl : ∀ p ∈ l, p < s.players.length) :
    DealInvariant s (l.foldl dealOneTo s) := by
  induction l generalizing s with
  | nil => exact dealInvariant_rfl s
  | cons p t ih =>
    simp only [List.foldl_cons]
    have h1 := dealOneTo_inv s p (hl p (List.mem_cons_self _ _))
    refine dealInvariant_trans h1 (ih (dealOneTo s p) ?_)
    intro q hq
    rw [h1.2.2.2]
    exact hl q (List.mem_cons_of_mem _ hq)

theorem dealRound_inv (s : GameState) : DealInvariant s (dealRound s) :=
  foldl_dealOneTo_inv (List.range s.players.length) s
    (fun _ hp => List.mem_range.mp hp)

theorem dealCards_inv (n : Nat) (s : GameState) : DealInvariant s (dealCards n s) := by
  unfold dealCards
  generalize List.range n = l
  induction l generalizing s with
  | nil => exact dealInvariant_rfl s
  | cons a t ih =>
    simp only [List.foldl_cons]
    exact dealInvariant_trans (dealRound_inv s) (ih (dealRound s))

theorem foldl_dealConst_inv (l : List Nat) (p : Nat) (s : GameState)
    (hp : p < s.players.length) :
    DealInvariant s (l.foldl (fun s2 _ => dealOneTo s2 p) s) := by
  induction l generalizing s with
  | nil => exact dealInvariant_rfl s
  | cons a t ih =>
    simp only [List.foldl_cons]
    have h1 := dealOneTo_inv s p hp
    refine dealInvariant_trans h1 (ih (dealOneTo s p) ?_)
    rw [h1.2.2.2]
    exact hp

theorem dealNewCardsTo_inv (s : GameState) (p : Nat) :
    DealInvariant s (dealNewCardsTo s p) := by
  by_cases hp : p < s.players.length
  · exact foldl_dealConst_inv _ p s hp
  · have hnone : s.players.get? p = none := List.get?_eq_none.mpr (le_of_not_lt hp)
    unfold dealNewCardsTo
    rw [hnone]
    exact dealInvariant_rfl s

theorem dealNewCards_inv (s : GameState) : DealInvariant s (dealNewCards s) := by
  unfold dealNewCards
  generalize List.range s.players.length = l
  induction l generalizing s with
  | nil => exact dealInvariant_rfl s
  | cons a t ih =>
    simp only [List.foldl_cons]
    exact dealInvariant_trans (dealNewCardsTo_inv s a) (ih (dealNewCardsTo s a))

theorem resetCounts (ps : List Player) :
    handsCount (ps.map resetForNewHand) = 0 ∧ wonCount (ps.map resetForNewHand) = 0 := by
  induction ps with
  | nil => exact ⟨rfl, rfl⟩
  | cons a t ih =>
    simpa [handsCount, wonCount, resetForNewHand] using ih

theorem startHandState_counts (tape : List Nat) (s : GameState) :
    handsCount (startHandState tape s).players = 0 ∧
    wonCount (startHandState tape s).players = 0 ∧
    (startHandState tape s).deck.length = 52 ∧
    (startHandState tape s).trickPlays = [] := by
  refine ⟨(resetCounts s.players).1, (resetCounts s.players).2, ?_, rfl⟩
  show (shuffle tape createDeck).length = 52
  rw [shuffle_length, createDeck_length]

theorem resolveTrick_ne_none (s : GameState) (h : s.trickPlays ≠ []) :
    resolveTrick s ≠ none := by
  unfold resolveTrick
  rcases hTP : s.trickPlays with _ | ⟨w, rest⟩
  · exact absurd hTP h
  · simp

/-- C7: after `startNewHand` with 4 seated players the cards in hands, won
piles, the trick in progress and the deck total 52 (with won piles and trick
empty, so hands plus deck alone total 52); `dealCards`, `dealNewCards` and
every successful `playCard` preserve the total. -/
theorem cardConservation_spec :
    (∀ (tape : List Nat) (s : GameState), s.players.length = 4 →
      totalCards (startNewHand tape s) = 52 ∧
      handsCount (startNewHand tape s).players + (startNewHand tape s).deck.length = 52 ∧
      wonCount (startNewHand tape s).players = 0 ∧
      (startNewHand tape s).trickPlays = []) ∧
    (∀ (n : Nat) (s : GameState), totalCards (dealCards n s) = totalCards s) ∧
    (∀ s : GameState, totalCards (dealNewCards s) = totalCards s) ∧
    (∀ (s : GameState) (pseat cardIndex : Nat) (res : PlayCardResult) (s2 : GameState),
      playCard s pseat cardIndex = some (res, s2) → totalCards s2 = totalCards s) := by
  refine ⟨?_, ?_, ?_, ?_⟩
  · intro tape s _
    obtain ⟨ha, hb, hc, hd⟩ := startHandState_counts tape s
    obtain ⟨h1, h2, h3, _⟩ := dealCards_inv 6 (startHandState tape s)
    unfold startNewHand
    refine ⟨?_, by omega, by rw [h2, hb], by rw [h3, hd]⟩
    unfold totalCards
    rw [h3, hd]
    simp only [List.length_nil]
    omega
  · intro n s
    obtain ⟨h1, h2, h3, _⟩ := dealCards_inv n s
    unfold totalCards
    rw [h3]
    omega
  · intro s
    obtain ⟨h1, h2, h3, _⟩ := dealNewCards_inv s
    unfold totalCards
    rw [h3]
    omega
  · intro s pseat cardIndex res s2 hplay
    unfold playCard at hplay
    rcases hp1 : s.players.get? pseat with _ | player
    · rw [hp1] at hplay
      simp at hplay
    rw [hp1] at hplay
    dsimp only at hplay
    rcases hc1 : player.hand.get? cardIndex with _ | card
    · rw [hc1] at hplay
      simp at hplay
    rw [hc1] at hplay
    simp only [nextPlayer] at hplay
    have hlt : cardIndex < player.hand.length := by
      obtain ⟨hl, _⟩ := List.get?_eq_some.mp hc1
      exact hl
    have he := List.length_eraseIdx_add_one hlt
    have h1 := sumMap_set (fun q => q.hand.length) s.players pseat player
      { player with hand := player.hand.eraseIdx cardIndex } hp1
    have h2 := sumMap_set (fun q => q.wonCards.length) s.players pseat player
      { player with hand := player.hand.eraseIdx cardIndex } hp1
    dsimp only at h1 h2
    split at hplay
    · split at hplay
      · simp at hplay
      · rename_i winner hr
        split at hplay
        · simp at hplay
        · rename_i wpl hw
          injection hplay with hpair
          injection hpair with hres hstate
          subst hstate
          have h3 := sumMap_set (fun q => q.hand.length)
            (s.players.set pseat { player with hand := player.hand.eraseIdx cardIndex })
            winner.seat wpl
            { wpl with wonCards := wpl.wonCards ++
                (s.trickPlays ++ [(⟨player.seat, card, player.name⟩ : TrickPlay)]).map TrickPlay.card } hw
          have h4 := sumMap_set (fun q => q.wonCards.length)
            (s.players.set pseat { player with hand := player.hand.eraseIdx cardIndex })
            winner.seat wpl
            { wpl with wonCards := wpl.wonCards ++
                (s.trickPlays ++ [(⟨player.seat, card, player.name⟩ : TrickPlay)]).map TrickPlay.card } hw
          dsimp only at h3 h4
          simp only [List.length_append, List.length_map, List.length_singleton] at h4
          unfold totalCards handsCount wonCount at *
          dsimp only
          simp only [List.length_nil, List.length_append, List.length_singleton]
          omega
    · injection hplay with hpair
      injection hpair with hres hstate
      subst hstate
      unfold totalCards handsCount wonCount at *
      dsimp only
      simp only [List.length_append, List.length_singleton]
      omega

/-- Witness for C7: a fresh hand from `baseGame` (empty randomness tape, so
the shuffle is the identity permutation) and one concrete card play. -/
theorem cardConservation_spec_witness :
    (totalCards (startNewHand [] baseGame) = 52 ∧
     handsCount (startNewHand [] baseGame).players +
       (startNewHand [] baseGame).deck.length = 52 ∧
     wonCount (startNewHand [] baseGame).players = 0 ∧
     (startNewHand [] baseGame).trickPlays = []) ∧
    totalCards c7PlayAfter = totalCards c7PlayState :=
  ⟨cardConservation_spec.1 [] baseGame rfl,
   cardConservation_spec.2.2.2 c7PlayState 0 0 ⟨false, none⟩ c7PlayAfter (by decide)⟩

/-- C10: `calculateScore` is a pure query.  Its translation required no state
update (the source assigns to no engine field), so running it returns the
score results and leaves every component of the engine state — players
(hands and won piles), scores, phase, turn, trump, and all bidding fields —
unchanged. -/
theorem calculateScore_pure (s : GameState) :
    (calculateScoreRun s).1 = calculateScore s ∧
    (calculateScoreRun s).2.players = s.players ∧
    (calculateScoreRun s).2.scores = s.scores ∧
    (calculateScoreRun s).2.phase = s.phase ∧
    (calculateScoreRun s).2.currentPlayer = s.currentPlayer ∧
    (calculateScoreRun s).2.trumpSuit = s.trumpSuit ∧
    (calculateScoreRun s).2.currentBid = s.currentBid ∧
    (calculateScoreRun s).2.highestBidder = s.highestBidder ∧
    (calculateScoreRun s).2.bidContract = s.bidContract ∧
    (calculateScoreRun s).2.cinchBidder = s.cinchBidder ∧
    (calculateScoreRun s).2.bids = s.bids ∧
    (calculateScoreRun s).2.playersBid = s.playersBid ∧
    (calculateScoreRun s).2 = s :=
  ⟨rfl, rfl, rfl, rfl, rfl, rfl, rfl, rfl, rfl, rfl, rfl, rfl, rfl⟩

end Cinch
